import Mathlib

/-!
Verification of the class/task adaptation core of the
`model_preparation_algorithm` repository: class-name mapping, class/task set
refinement (`mpa/cls/stage.py`), detection-head weight re-indexing
(`mpa/modules/models/detectors/custom_single_stage_detector.py`), the
segmentation dataset partition (`mpa/modules/datasets/seg_incr_voc_dataset.py`)
and the task-adaptation hook (`mpa/modules/hooks/task_adapt_hook.py`).

Python lists of class-name strings become `List String`; tensors are modelled
as lists of abstract rows (`List Int`, one entry per row); Python exceptions
become `Except`.
-/

namespace Mpa

/-- Modelled from the spec: `map_class_names(source_list, destination_list)`
(from `mpa/modules/utils/task_adapt.py`, a file not included in the sources).
For each name in the destination list, its position in the source list, `-1`
when absent.  The repository's call sites pass the list that indexes the
result as the first argument, so every call below is embedded with the
spec's `(source, destination)` convention: the destination (indexing) list
is the second argument. -/
def map_class_names (src dst : List String) : List Int :=
  dst.map (fun c => if c ∈ src then ((List.indexOf c src : Nat) : Int) else -1)

/-- Error kinds of the refiners, named as in the spec's error taxonomy.
`ValidationError` embeds the `ValueError` raised by `refine_cls` on an empty
new-class list; `ConfigurationError` embeds the `KeyError` raised by both
refiners on an unsupported `adapt_type`. -/
inductive AdaptError where
  | ValidationError (msg : String) : AdaptError
  | ConfigurationError (msg : String) : AdaptError
deriving DecidableEq, Repr

/-- `refine_cls(train_cfg, meta, adapt_type)` from `mpa/cls/stage.py`
(lines 279-293), with the two dictionary reads `train_cfg['new_classes']` and
`meta['CLASSES']` passed as the list arguments.  Returns
`(dst_classes, old_classes)`. -/
def refine_cls (new_classes old_classes : List String) (adapt_type : String) :
    Except AdaptError (List String × List String) :=
  if adapt_type = "REPLACE" then
    if new_classes.length = 0 then
      .error (.ValidationError "Data classes should contain at least one class!")
    else
      .ok (new_classes, old_classes)
  else if adapt_type = "MERGE" then
    .ok (old_classes ++ new_classes.filter (fun cls => cls ∉ old_classes), old_classes)
  else
    .error (.ConfigurationError (adapt_type ++ " is not supported for task_adapt options!"))

/-- A Python dict from task names to class lists, as an insertion-ordered
association list. -/
abbrev TaskSet : Type := List (String × List String)

/-- Python dict assignment `d[k] = v`: overwrite in place when the key exists
(keeping its position), append otherwise. -/
def dictSet (d : TaskSet) (k : String) (v : List String) : TaskSet :=
  if d.any (fun p => p.1 = k) then
    d.map (fun p => if p.1 = k then (k, v) else p)
  else
    d ++ [(k, v)]

/-- One iteration of the MERGE loop body of `refine_tasks`:
`if model_tasks.get(task): model_tasks[task] = model_tasks[task] + [c for c in
cls if c not in model_tasks[task]] else: model_tasks.update({task: cls})`.
Note `dict.get` truthiness: a present but empty class list takes the `else`
branch. -/
def mergeTask (d : TaskSet) (task : String) (cls : List String) : TaskSet :=
  match List.lookup task d with
  | some cls0 =>
      if cls0 = [] then dictSet d task cls
      else dictSet d task (cls0 ++ cls.filter (fun c => c ∉ cls0))
  | none => dictSet d task cls

/-- `refine_tasks(train_cfg, meta, adapt_type)` from `mpa/cls/stage.py`
(lines 260-276), with `train_cfg['tasks']` and `meta['tasks']` passed as the
arguments.  Returns `(model_tasks, old_tasks)`. -/
def refine_tasks (new_tasks meta_tasks : TaskSet) (adapt_type : String) :
    Except AdaptError (TaskSet × TaskSet) :=
  if adapt_type = "REPLACE" then
    .ok (new_tasks, [])
  else if adapt_type = "MERGE" then
    .ok (new_tasks.foldl (fun d p => mergeTask d p.1 p.2) meta_tasks, meta_tasks)
  else
    .error (.ConfigurationError (adapt_type ++ " is not supported for task_adapt options!"))

/-- Whether a refiner result is the spec's `ConfigurationError`. -/
def isConfigurationError {α : Type} : Except AdaptError α → Bool
  | .error (.ConfigurationError _) => true
  | _ => false

/-- One anchor group of the weight-mixing loop of
`CustomSingleStageDetector.load_state_dict_pre_hook` (lines 112-117):
`for m, c in enumerate(model2chkpt): if c >= 0:
model_param[anchor_idx * num_model_classes + m].copy_(chkpt_param[anchor_idx *
num_chkpt_classes + c])`.  `ms` is the remaining tail of `model2chkpt` and
`m0` the position of its head; rows are modelled as `Int` values. -/
def applyAnchor (C M a : Nat) (chkptParam : List Int) :
    List Int → Nat → List Int → List Int
  | [], _, acc => acc
  | c :: ms, m0, acc =>
      applyAnchor C M a chkptParam ms (m0 + 1)
        (if 0 ≤ c then acc.set (a * M + m0) (chkptParam.getD (a * C + c.toNat) 0)
         else acc)

/-- Anchor groups `0, …, n-1` in ascending order
(`for anchor_idx in range(num_anchors)`). -/
def mixGo (model2chkpt : List Int) (C M : Nat) (chkptParam : List Int) :
    Nat → List Int → List Int
  | 0, acc => acc
  | n + 1, acc =>
      applyAnchor C M n chkptParam model2chkpt 0 (mixGo model2chkpt C M chkptParam n acc)

/-- The per-parameter weight mixing of `load_state_dict_pre_hook`
(lines 103-120): the anchor count of each space is inferred by integer
division of the row count by the class count, and `min` of the two counts
many anchor groups are mixed into a clone of the freshly initialized model
parameter. -/
def mixParam (model2chkpt : List Int) (C M : Nat) (chkptParam modelParam : List Int) :
    List Int :=
  mixGo model2chkpt C M chkptParam
    (min (chkptParam.length / C) (modelParam.length / M)) modelParam

/-- Modelled from the spec: `np.setdiff1d(a, b).tolist()` (an external numpy
call), the new-class delta — "set difference, order preserving": the unique
values of `a` that do not occur in `b`. -/
def npSetdiff1d (a b : List String) : List String :=
  (a.filter (fun x => x ∉ b)).dedup

/-- Modelled from the spec: `ClsIncrSampler(dataset, batch_size,
efficient_mode=...)` (from `mpa/modules/datasets/samplers/cls_incr_sampler.py`,
a file not included in the sources); only the constructor arguments are
recorded, which is all `before_epoch` depends on. -/
structure ClsIncrSamplerM where
  dataset : Nat
  samples_per_gpu : Nat
  efficient_mode : Bool
deriving DecidableEq, Repr

/-- A `torch.utils.data.DataLoader`, reduced to the attributes
`TaskAdaptHook.before_epoch` reads and passes on; Python objects that are
only carried around (dataset, collate and worker-init functions) are
identified by opaque `Nat` ids. -/
structure DataLoaderM where
  dataset : Nat
  batch_size : Nat
  num_workers : Nat
  collate_fn : Nat
  worker_init_fn : Nat
  sampler : Option ClsIncrSamplerM
  pin_memory : Bool
deriving DecidableEq, Repr

/-- The slice of an `mmcv` runner read and written by
`TaskAdaptHook.before_epoch`. -/
structure RunnerM where
  data_loader : DataLoaderM
deriving DecidableEq, Repr

/-- The `TaskAdaptHook` of `mpa/modules/hooks/task_adapt_hook.py`
(constructor arguments stored by `__init__`). -/
structure TaskAdaptHook where
  src_classes : List String
  dst_classes : List String
  model_type : String
  sampler_flag : Bool
  efficient_mode : Bool
deriving DecidableEq, Repr

/-- `TaskAdaptHook.before_epoch` (lines 37-54): when `sampler_flag` is set,
rebuild `runner.data_loader` with a fresh `ClsIncrSampler` over the
(unwrapped) dataset; otherwise do nothing.  `innerOf` models the
`hasattr(dataset, 'dataset')` unwrapping: the id of `dataset.dataset` when
that attribute exists. -/
def before_epoch (innerOf : Nat → Option Nat) (h : TaskAdaptHook)
    (runner : RunnerM) : RunnerM :=
  if h.sampler_flag then
    let ds0 := runner.data_loader.dataset
    let ds := (innerOf ds0).getD ds0
    let bs := runner.data_loader.batch_size
    { data_loader :=
      { dataset := ds
        batch_size := bs
        num_workers := runner.data_loader.num_workers
        collate_fn := runner.data_loader.collate_fn
        worker_init_fn := runner.data_loader.worker_init_fn
        sampler := some ⟨ds, bs, h.efficient_mode⟩
        pin_memory := false } }
  else
    runner

/-- A fragment of the Python object heap, for the aliasing behaviour of the
refiners: class-name-list objects and task-dict objects, addressed by `Nat`
references; `next` is the next fresh address. -/
structure PyHeap where
  next : Nat
  lists : Nat → List String
  dicts : Nat → List (String × Nat)

/-- Allocate a fresh list object. -/
def allocList (σ : PyHeap) (v : List String) : Nat × PyHeap :=
  (σ.next,
   { next := σ.next + 1
     lists := fun r => if r = σ.next then v else σ.lists r
     dicts := σ.dicts })

/-- Allocate a fresh dict object. -/
def allocDict (σ : PyHeap) (v : List (String × Nat)) : Nat × PyHeap :=
  (σ.next,
   { next := σ.next + 1
     lists := σ.lists
     dicts := fun r => if r = σ.next then v else σ.dicts r })

/-- Overwrite a dict object in place. -/
def writeDict (σ : PyHeap) (r : Nat) (v : List (String × Nat)) : PyHeap :=
  { σ with dicts := fun r' => if r' = r then v else σ.dicts r' }

/-- Python dict assignment on reference-valued dict entries: overwrite in
place when the key exists (keeping its position), append otherwise. -/
def dictSetRef (d : List (String × Nat)) (k : String) (r : Nat) :
    List (String × Nat) :=
  if d.any (fun p => p.1 = k) then
    d.map (fun p => if p.1 = k then (k, r) else p)
  else
    d ++ [(k, r)]

/-- Heap-level `refine_cls` (`mpa/cls/stage.py` lines 279-293): `REPLACE`
allocates `new_classes.copy()`, `MERGE` allocates the concatenation
`old_classes + [...]`; the old-class list is returned by reference. -/
def refine_clsH (σ : PyHeap) (rNew rOld : Nat) (adapt_type : String) :
    Except AdaptError ((Nat × Nat) × PyHeap) :=
  if adapt_type = "REPLACE" then
    if (σ.lists rNew).length = 0 then
      .error (.ValidationError "Data classes should contain at least one class!")
    else
      .ok (((allocList σ (σ.lists rNew)).1, rOld), (allocList σ (σ.lists rNew)).2)
  else if adapt_type = "MERGE" then
    .ok (((allocList σ ((σ.lists rOld) ++
            (σ.lists rNew).filter (fun c => c ∉ σ.lists rOld))).1, rOld),
         (allocList σ ((σ.lists rOld) ++
            (σ.lists rNew).filter (fun c => c ∉ σ.lists rOld))).2)
  else
    .error (.ConfigurationError (adapt_type ++ " is not supported for task_adapt options!"))

/-- `copy.deepcopy` of a task dict's entries: allocate a fresh copy of every
class list. -/
def deepcopyEntries (σ : PyHeap) : List (String × Nat) →
    List (String × Nat) × PyHeap
  | [] => ([], σ)
  | (nm, r) :: rest =>
      ((nm, (allocList σ (σ.lists r)).1) ::
        (deepcopyEntries (allocList σ (σ.lists r)).2 rest).1,
       (deepcopyEntries (allocList σ (σ.lists r)).2 rest).2)

/-- One MERGE loop iteration of `refine_tasks` on the heap: a present,
non-empty entry is replaced by a freshly allocated concatenation; a missing
or empty entry is set to the new task's class-list reference itself. -/
def mergeTaskH (σ : PyHeap) (rModel : Nat) (nm : String) (rCls : Nat) : PyHeap :=
  match List.lookup nm (σ.dicts rModel) with
  | some r0 =>
      if σ.lists r0 = [] then
        writeDict σ rModel (dictSetRef (σ.dicts rModel) nm rCls)
      else
        writeDict (allocList σ ((σ.lists r0) ++
            (σ.lists rCls).filter (fun c => c ∉ σ.lists r0))).2 rModel
          (dictSetRef (σ.dicts rModel) nm
            (allocList σ ((σ.lists r0) ++
              (σ.lists rCls).filter (fun c => c ∉ σ.lists r0))).1)
  | none => writeDict σ rModel (dictSetRef (σ.dicts rModel) nm rCls)

/-- Heap-level `refine_tasks` (`mpa/cls/stage.py` lines 260-276): `REPLACE`
returns the new task dict by reference and a fresh empty dict as
`old_tasks`; `MERGE` deep-copies the metadata's task dict and extends the
copy, returning the metadata dict by reference as `old_tasks`. -/
def refine_tasksH (σ : PyHeap) (rNewT rMetaT : Nat) (adapt_type : String) :
    Except AdaptError ((Nat × Nat) × PyHeap) :=
  if adapt_type = "REPLACE" then
    .ok ((rNewT, (allocDict σ []).1), (allocDict σ []).2)
  else if adapt_type = "MERGE" then
    .ok ((((allocDict (deepcopyEntries σ (σ.dicts rMetaT)).2
              (deepcopyEntries σ (σ.dicts rMetaT)).1).1), rMetaT),
         (σ.dicts rNewT).foldl
           (fun σc p => mergeTaskH σc
             (allocDict (deepcopyEntries σ (σ.dicts rMetaT)).2
               (deepcopyEntries σ (σ.dicts rMetaT)).1).1 p.1 p.2)
           (allocDict (deepcopyEntries σ (σ.dicts rMetaT)).2
             (deepcopyEntries σ (σ.dicts rMetaT)).1).2)
  else
    .error (.ConfigurationError (adapt_type ++ " is not supported for task_adapt options!"))

/-- A PyTorch state dict (name to tensor), with tensors as row lists. -/
abbrev StateDict : Type := String → Option (List Int)

/-- `template.format(level)`: a parameter-name template is the pair of the
text before and after the `{}` placeholder. -/
def fmtName (t : String × String) (level : Nat) : String :=
  t.1 ++ toString level ++ t.2

/-- Dict assignment `d[k] = v`. -/
def updateDict (d : StateDict) (k : String) (v : List Int) : StateDict :=
  fun k' => if k' = k then some v else d k'

/-- The inner loop `for model_name in param_names` of
`load_state_dict_pre_hook` (lines 95-120) at one level: probe
`model_name` in the model dict and `prefix + model_name` in the checkpoint
dict, break at the first miss, otherwise mix the parameter into the
checkpoint dict and set `level_found`.  Returns the updated checkpoint
dict, `level_found`, and the probed keys (both dict lookups are recorded). -/
def processParams (md : StateDict) (mp : List Int) (C M : Nat) (pfx : String)
    (level : Nat) : List (String × String) → Bool → StateDict →
      StateDict × Bool × List String
  | [], found, cd => (cd, found, [])
  | t :: ts, found, cd =>
    match md (fmtName t level), cd (pfx ++ fmtName t level) with
    | some mparam, some cparam =>
        (((processParams md mp C M pfx level ts true
            (updateDict cd (pfx ++ fmtName t level) (mixParam mp C M cparam mparam))).1,
          (processParams md mp C M pfx level ts true
            (updateDict cd (pfx ++ fmtName t level) (mixParam mp C M cparam mparam))).2.1,
          fmtName t level :: (pfx ++ fmtName t level) ::
            (processParams md mp C M pfx level ts true
              (updateDict cd (pfx ++ fmtName t level) (mixParam mp C M cparam mparam))).2.2))
    | _, _ => (cd, found, [fmtName t level, pfx ++ fmtName t level])

/-- The outer loop `for level in range(10)` of `load_state_dict_pre_hook`
(lines 93-122): process each level and break as soon as `level_found`
stays `False`.  `fuel` is the remaining number of allowed levels. -/
def runLevels (md : StateDict) (mp : List Int) (C M : Nat) (pfx : String)
    (ps : List (String × String)) : Nat → Nat → StateDict → StateDict × List String
  | 0, _, cd => (cd, [])
  | fuel + 1, level, cd =>
      if (processParams md mp C M pfx level ps false cd).2.1 then
        ((runLevels md mp C M pfx ps fuel (level + 1)
            (processParams md mp C M pfx level ps false cd).1).1,
         (processParams md mp C M pfx level ps false cd).2.2 ++
           (runLevels md mp C M pfx ps fuel (level + 1)
             (processParams md mp C M pfx level ps false cd).1).2)
      else
        ((processParams md mp C M pfx level ps false cd).1,
         (processParams md mp C M pfx level ps false cd).2.2)

/-- The plain-conv parameter-name templates (lines 80-83). -/
def paramNamesPlain : List (String × String) :=
  [("bbox_head.cls_convs.", ".weight"), ("bbox_head.cls_convs.", ".bias")]

/-- The depth-wise-conv parameter-name templates (lines 85-88). -/
def paramNamesDW : List (String × String) :=
  [("bbox_head.cls_convs.", ".3.weight"), ("bbox_head.cls_convs.", ".3.bias")]

/-- The pattern-probing `if/elif/else` of `load_state_dict_pre_hook`
(lines 79-90). -/
def hookParams (cd : StateDict) (pfx : String) : List (String × String) :=
  if (cd (pfx ++ "bbox_head.cls_convs.0.weight")).isSome then paramNamesPlain
  else if (cd (pfx ++ "bbox_head.cls_convs.0.0.weight")).isSome then paramNamesDW
  else []

/-- `CustomSingleStageDetector.load_state_dict_pre_hook` (lines 63-122):
compute the model-to-checkpoint class mapping over the class lists extended
with `'__BG__'`, select the parameter-name templates, and run the level
loop.  Returns the rewritten checkpoint dict together with every key looked
up in either dict (the two pattern probes first). -/
def load_state_dict_pre_hook (model_classes chkpt_classes : List String)
    (md cd : StateDict) (pfx : String) : StateDict × List String :=
  ((runLevels md
      (map_class_names (chkpt_classes ++ ["__BG__"]) (model_classes ++ ["__BG__"]))
      (chkpt_classes ++ ["__BG__"]).length (model_classes ++ ["__BG__"]).length
      pfx (hookParams cd pfx) 10 0 cd).1,
   (pfx ++ "bbox_head.cls_convs.0.weight") ::
   (pfx ++ "bbox_head.cls_convs.0.0.weight") ::
   (runLevels md
      (map_class_names (chkpt_classes ++ ["__BG__"]) (model_classes ++ ["__BG__"]))
      (chkpt_classes ++ ["__BG__"]).length (model_classes ++ ["__BG__"]).length
      pfx (hookParams cd pfx) 10 0 cd).2)

/-- Whether the first probed parameter name of a level is missing from the
model dict or from the checkpoint dict (the level-loop break condition). -/
def firstNameMissing (md cd : StateDict) (pfx : String)
    (ps : List (String × String)) (level : Nat) : Bool :=
  match ps with
  | [] => true
  | t :: _ => !((md (fmtName t level)).isSome && (cd (pfx ++ fmtName t level)).isSome)

/-- The level at which the loop stops probing, relative to the original
dicts. -/
def stopLevelAux (md cd : StateDict) (pfx : String)
    (ps : List (String × String)) : Nat → Nat → Nat
  | 0, level => level
  | fuel + 1, level =>
      if firstNameMissing md cd pfx ps level then level
      else stopLevelAux md cd pfx ps fuel (level + 1)

/-- The first level `< 10` whose first parameter name is missing from either
dict (`10` when none is). -/
def stopLevel (md cd : StateDict) (pfx : String)
    (ps : List (String × String)) : Nat :=
  stopLevelAux md cd pfx ps 10 0

/-- Ordered insertion into a sorted list of naturals. -/
def insertNat (x : Nat) : List Nat → List Nat
  | [] => [x]
  | y :: ys => if x ≤ y then x :: y :: ys else y :: insertNat x ys

/-- Insertion sort of naturals (ascending). -/
def sortNat : List Nat → List Nat
  | [] => []
  | x :: xs => insertNat x (sortNat xs)

/-- Modelled from the spec: `np.unique` (an external numpy call) — the sorted
unique values of an array. -/
def npUnique (l : List Nat) : List Nat :=
  sortNat l.dedup

/-- Python list indexing `l[i]` for an `int` index: negative indices count
from the right. -/
def pyGet (l : List Int) (i : Int) : Int :=
  if i < 0 then l.getD (l.length - i.natAbs) 0 else l.getD i.toNat 0

/-- The per-sample test of `SegIncrVOCDataset.statistics` (lines 36-45):
ignore pixels `255` are normalized to background `0`, the present pixel
values are collected (`np.unique`), turned into names (`label_schema`),
mapped back to positions in those names (`model2data`), and the sample
counts as "new" when some new-class position yields a value other than
`-1`.  `classesB` is `['background'] + self.classes` and
`new_class_indices` is `map_class_names(self.new_classes, classes)` (the
position of each new class inside `classesB`). -/
def sampleIsNew (classesB : List String) (new_class_indices : List Int)
    (gt_map0 : List Nat) : Bool :=
  let gt_map := gt_map0.map (fun p => if p = 255 then 0 else p)
  let gt := npUnique gt_map
  let label_schema := gt.map (fun i => classesB.getD i "")
  let model2data := map_class_names label_schema classesB
  let new_class_values := new_class_indices.map (fun idx => pyGet model2data idx)
  new_class_values.any (fun v => v != -1)

/-- `SegIncrVOCDataset.statistics` (lines 30-48): split the sample indices
into `img_indices['old']` (first component) and `img_indices['new']` (second
component); ground-truth segmentation maps are flattened pixel lists. -/
def statistics (classes new_classes : List String)
    (gt_seg_maps : List (List Nat)) : List Nat × List Nat :=
  (List.range gt_seg_maps.length).foldl
    (fun acc idx =>
      if sampleIsNew ("background" :: classes)
          (map_class_names ("background" :: classes) new_classes)
          (gt_seg_maps.getD idx []) then
        (acc.1, acc.2 ++ [idx])
      else
        (acc.1 ++ [idx], acc.2))
    ([], [])

/-- The task-adapt hook configured by `ClsStage.configure_task`
(lines 189-213): `train_data_cfg.new_classes =
np.setdiff1d(dst_classes, old_classes).tolist()`, `sampler_flag = True if
len(train_data_cfg.new_classes) > 0 else False`, and the custom-hook config
`src_classes=old_classes, dst_classes=dst_classes, model_type, sampler_flag,
efficient_mode`. -/
def configuredTaskAdaptHook (dst_classes old_classes : List String)
    (model_type : String) (efficient_mode : Bool) : TaskAdaptHook :=
  { src_classes := old_classes
    dst_classes := dst_classes
    model_type := model_type
    sampler_flag := if (npSetdiff1d dst_classes old_classes).length > 0 then true else false
    efficient_mode := efficient_mode }

end Mpa

namespace Mpa

theorem map_class_names_length (src dst : List String) :
    (map_class_names src dst).length = dst.length := by
  simp [map_class_names]

/-- Pointwise value of the mapping, in terms of the destination entry only. -/
theorem map_class_names_getD (src dst : List String) (i : Nat) (h : i < dst.length) :
    (map_class_names src dst).getD i 0 =
      if dst.getD i "" ∈ src then ((List.indexOf (dst.getD i "") src : Nat) : Int) else -1 := by
  induction dst generalizing i with
  | nil => simp at h
  | cons a l ih =>
    cases i with
    | zero => simp [map_class_names]
    | succ j =>
      simp only [map_class_names, List.map_cons, List.getD_cons_succ]
      exact ih j (by simpa using h)

/-- C1: `map_class_names(A, B)` has one entry per destination name: entry `i`
is `-1` exactly when `B[i]` is absent from `A`, otherwise it is a valid index
of `A` at which `A` holds `B[i]`; entry `i` is a function of `A` and `B[i]`
alone (independent of the other entries of `B`), and the function is pure. -/
theorem map_class_names_spec (A B : List String) (i : Nat) (h : i < B.length) :
    (map_class_names A B).length = B.length ∧
    ((map_class_names A B).getD i 0 = -1 ↔ B.getD i "" ∉ A) ∧
    ((map_class_names A B).getD i 0 ≠ -1 →
      ((map_class_names A B).getD i 0).toNat < A.length ∧
      A.getD ((map_class_names A B).getD i 0).toNat "" = B.getD i "") ∧
    (∀ B' : List String, ∀ j : Nat, j < B'.length → B'.getD j "" = B.getD i "" →
      (map_class_names A B').getD j 0 = (map_class_names A B).getD i 0) := by
  refine ⟨map_class_names_length A B, ?_, ?_, ?_⟩
  · rw [map_class_names_getD A B i h]
    by_cases hm : B.getD i "" ∈ A
    · rw [if_pos hm]
      constructor
      · intro hcast; exfalso; omega
      · intro hniff; exact absurd hm hniff
    · rw [if_neg hm]
      exact ⟨fun _ => hm, fun _ => rfl⟩
  · rw [map_class_names_getD A B i h]
    by_cases hm : B.getD i "" ∈ A
    · rw [if_pos hm]
      intro _
      have hlt : List.indexOf (B.getD i "") A < A.length :=
        List.indexOf_lt_length.mpr hm
      refine ⟨by simpa using hlt, ?_⟩
      have htn : (((List.indexOf (B.getD i "") A : Nat) : Int)).toNat =
          List.indexOf (B.getD i "") A := by simp
      rw [htn, List.getD_eq_getElem A "" hlt]
      exact List.getElem_indexOf hlt
    · rw [if_neg hm]
      intro hc; exact absurd rfl hc
  · intro B' j hj hval
    rw [map_class_names_getD A B' j hj, map_class_names_getD A B i h, hval]

/-- C1 witness: concrete instance `A = ["a", "b"]`, `B = ["b", "x"]`. -/
theorem map_class_names_spec_witness :
    (1 < (["b", "x"] : List String).length) ∧
    ((map_class_names ["a", "b"] ["b", "x"]).length = 2 ∧
      ((map_class_names ["a", "b"] ["b", "x"]).getD 1 0 = -1 ↔
        (["b", "x"] : List String).getD 1 "" ∉ (["a", "b"] : List String)) ∧
      ((map_class_names ["a", "b"] ["b", "x"]).getD 1 0 ≠ -1 →
        ((map_class_names ["a", "b"] ["b", "x"]).getD 1 0).toNat <
          (["a", "b"] : List String).length ∧
        (["a", "b"] : List String).getD
          ((map_class_names ["a", "b"] ["b", "x"]).getD 1 0).toNat "" =
          (["b", "x"] : List String).getD 1 "") ∧
      (∀ B' : List String, ∀ j : Nat, j < B'.length →
        B'.getD j "" = (["b", "x"] : List String).getD 1 "" →
        (map_class_names ["a", "b"] B').getD j 0 =
          (map_class_names ["a", "b"] ["b", "x"]).getD 1 0)) :=
  ⟨by decide, map_class_names_spec ["a", "b"] ["b", "x"] 1 (by decide)⟩

/-- C3: `refine_cls` with `REPLACE` fails with `ValidationError` exactly when
`new_classes` is empty; otherwise it returns `new_classes` as the destination
list and the metadata's old class list unchanged. -/
theorem refine_cls_replace_spec (new_classes old_classes : List String) :
    ((∃ msg, refine_cls new_classes old_classes "REPLACE" =
        .error (.ValidationError msg)) ↔ new_classes = []) ∧
    (new_classes ≠ [] →
      refine_cls new_classes old_classes "REPLACE" = .ok (new_classes, old_classes)) ∧
    refine_cls ["x"] ["a"] "REPLACE" = .ok (["x"], ["a"]) := by
  refine ⟨⟨?_, ?_⟩, ?_, rfl⟩
  · rintro ⟨msg, hmsg⟩
    by_cases hlen : new_classes.length = 0
    · exact List.length_eq_zero.mp hlen
    · simp [refine_cls, hlen] at hmsg
  · rintro rfl
    exact ⟨"Data classes should contain at least one class!", rfl⟩
  · intro hne
    have hlen : ¬ new_classes.length = 0 := fun hc => hne (List.length_eq_zero.mp hc)
    simp [refine_cls, hlen]

/-- C3 witness: nonempty new-class list, concrete lists. -/
theorem refine_cls_replace_spec_witness :
    ((["x"] : List String) ≠ []) ∧
    refine_cls ["x"] ["a"] "REPLACE" = .ok (["x"], ["a"]) :=
  ⟨by decide, (refine_cls_replace_spec ["x"] ["a"]).2.1 (by decide)⟩

/-- C4: `refine_cls` with `MERGE` returns the old classes (in order) followed
by exactly the new classes not already present, in the order of
`new_classes`; in particular `old = ["a","b"]`, `new = ["b","c"]` gives
`["a","b","c"]`. -/
theorem refine_cls_merge_spec (new_classes old_classes : List String) :
    refine_cls new_classes old_classes "MERGE" =
      .ok (old_classes ++ new_classes.filter (fun cls => cls ∉ old_classes),
           old_classes) ∧
    refine_cls ["b", "c"] ["a", "b"] "MERGE" = .ok (["a", "b", "c"], ["a", "b"]) := by
  constructor
  · rfl
  · rfl

/-- C7: for any `adapt_type` other than `REPLACE` and `MERGE`, both
`refine_cls` and `refine_tasks` fail with the spec's `ConfigurationError`
(the `KeyError` raise site), and they never produce that error for
`REPLACE` or `MERGE`. -/
theorem refine_configuration_error_spec (adapt_type : String)
    (new_classes old_classes : List String) (new_tasks meta_tasks : TaskSet) :
    (isConfigurationError (refine_cls new_classes old_classes adapt_type) = true ↔
      (adapt_type ≠ "REPLACE" ∧ adapt_type ≠ "MERGE")) ∧
    (isConfigurationError (refine_tasks new_tasks meta_tasks adapt_type) = true ↔
      (adapt_type ≠ "REPLACE" ∧ adapt_type ≠ "MERGE")) := by
  constructor
  · by_cases hr : adapt_type = "REPLACE"
    · by_cases hlen : new_classes.length = 0 <;>
        simp [refine_cls, hr, hlen, isConfigurationError]
    · by_cases hm : adapt_type = "MERGE" <;>
        simp [refine_cls, hr, hm, isConfigurationError]
  · by_cases hr : adapt_type = "REPLACE"
    · simp [refine_tasks, hr, isConfigurationError]
    · by_cases hm : adapt_type = "MERGE" <;>
        simp [refine_tasks, hr, hm, isConfigurationError]

theorem getD_set_ne (l : List Int) (i j : Nat) (v : Int) (h : i ≠ j) :
    (l.set i v).getD j 0 = l.getD j 0 := by
  simp [List.getD_eq_getD_get?, List.get?_eq_getElem?, List.getElem?_set_ne h]

theorem getD_set_self (l : List Int) (i : Nat) (v : Int) (h : i < l.length) :
    (l.set i v).getD i 0 = v := by
  simp [List.getD_eq_getD_get?, List.get?_eq_getElem?, List.getElem?_set_eq_of_lt v h]

theorem set_getD_self (l : List Int) (i : Nat) (h : i < l.length) :
    l.set i (l.getD i 0) = l := by
  induction l generalizing i with
  | nil => simp at h
  | cons a t ih =>
    cases i with
    | zero => simp
    | succ j =>
      simp only [List.getD_cons_succ, List.set_cons_succ]
      rw [ih j (by simpa using h)]

/-- Rows of distinct (anchor, class) pairs are distinct within a block. -/
theorem anchor_index_inj {M a a' j j' : Nat} (hj : j < M) (hj' : j' < M)
    (h : a * M + j = a' * M + j') : a = a' ∧ j = j' := by
  have hM : 0 < M := Nat.lt_of_le_of_lt (Nat.zero_le j) hj
  have h1 : (a * M + j) / M = a := by
    rw [Nat.mul_comm a M, Nat.mul_add_div hM, Nat.div_eq_of_lt hj, Nat.add_zero]
  have h2 : (a' * M + j') / M = a' := by
    rw [Nat.mul_comm a' M, Nat.mul_add_div hM, Nat.div_eq_of_lt hj', Nat.add_zero]
  have h3 : (a * M + j) % M = j := by
    rw [Nat.mul_comm a M, Nat.mul_add_mod, Nat.mod_eq_of_lt hj]
  have h4 : (a' * M + j') % M = j' := by
    rw [Nat.mul_comm a' M, Nat.mul_add_mod, Nat.mod_eq_of_lt hj']
  constructor
  · rw [← h1, ← h2, h]
  · rw [← h3, ← h4, h]

/-- A row of an anchor group below the inferred anchor count is in range. -/
theorem anchor_row_lt {M a j len : Nat} (hj : j < M) (ha : a < len / M) :
    a * M + j < len := by
  have h1 : (a + 1) * M ≤ (len / M) * M := Nat.mul_le_mul_right M ha
  have h2 : (len / M) * M ≤ len := Nat.div_mul_le_self len M
  calc a * M + j < a * M + M := by omega
    _ = (a + 1) * M := by ring
    _ ≤ (len / M) * M := h1
    _ ≤ len := h2

theorem applyAnchor_length (C M a : Nat) (k ms : List Int) (m0 : Nat) (acc : List Int) :
    (applyAnchor C M a k ms m0 acc).length = acc.length := by
  induction ms generalizing m0 acc with
  | nil => rfl
  | cons c ms ih =>
    rw [applyAnchor, ih]
    split <;> simp

/-- Indices never written with a non-negative mapping entry keep their value. -/
theorem applyAnchor_getD_skip (C M a : Nat) (k ms : List Int) (m0 : Nat)
    (acc : List Int) (i : Nat)
    (hskip : ∀ j, j < ms.length → i = a * M + (m0 + j) → ¬ 0 ≤ ms.getD j 0) :
    (applyAnchor C M a k ms m0 acc).getD i 0 = acc.getD i 0 := by
  induction ms generalizing m0 acc with
  | nil => rfl
  | cons c ms ih =>
    rw [applyAnchor]
    rw [ih (m0 + 1) _ (fun j hj hij => by
      have := hskip (j + 1) (by simpa using hj) (by omega)
      simpa using this)]
    by_cases hc : 0 ≤ c
    · by_cases hi : i = a * M + m0
      · exact absurd hc (by simpa using hskip 0 (by simp) (by omega))
      · rw [if_pos hc, getD_set_ne _ _ _ _ (fun he => hi he.symm)]
    · rw [if_neg hc]

/-- A position written with a non-negative mapping entry gets the matching
checkpoint row. -/
theorem applyAnchor_getD_write (C M a : Nat) (k ms : List Int) (m0 j : Nat)
    (acc : List Int) (hj : j < ms.length) (hpos : 0 ≤ ms.getD j 0)
    (hlt : a * M + (m0 + j) < acc.length) :
    (applyAnchor C M a k ms m0 acc).getD (a * M + (m0 + j)) 0 =
      k.getD (a * C + (ms.getD j 0).toNat) 0 := by
  induction ms generalizing m0 j acc with
  | nil => simp at hj
  | cons c ms ih =>
    cases j with
    | zero =>
      rw [applyAnchor]
      have hc : 0 ≤ c := by simpa using hpos
      rw [if_pos hc]
      rw [applyAnchor_getD_skip C M a k ms (m0 + 1) _ _ (fun j' hj' hij' => by
        exfalso; omega)]
      have hval : (acc.set (a * M + m0) (k.getD (a * C + c.toNat) 0)).getD
          (a * M + (m0 + 0)) 0 = k.getD (a * C + c.toNat) 0 := by
        have : a * M + (m0 + 0) = a * M + m0 := by omega
        rw [this]
        exact getD_set_self acc _ _ (by omega)
      rw [hval]
      simp
    | succ j' =>
      rw [applyAnchor]
      have heq : a * M + (m0 + (j' + 1)) = a * M + ((m0 + 1) + j') := by omega
      rw [heq]
      have hlen : (if 0 ≤ c then acc.set (a * M + m0) (k.getD (a * C + c.toNat) 0)
          else acc).length = acc.length := by split <;> simp
      have hres := ih (m0 + 1) j' _ (by simpa using hj) (by simpa using hpos)
        (by rw [hlen]; omega)
      rw [hres]
      simp

theorem mixGo_length (mp : List Int) (C M : Nat) (k : List Int) (n : Nat)
    (acc : List Int) : (mixGo mp C M k n acc).length = acc.length := by
  induction n with
  | zero => rfl
  | succ n ih => rw [mixGo, applyAnchor_length, ih]

/-- Positions not covered by any processed anchor's non-negative mapping
entry keep the freshly initialized model value. -/
theorem mixGo_getD_skip (mp : List Int) (C M : Nat) (k : List Int) (n : Nat)
    (acc : List Int) (i : Nat)
    (hskip : ∀ a j, a < n → j < mp.length → i = a * M + j → ¬ 0 ≤ mp.getD j 0) :
    (mixGo mp C M k n acc).getD i 0 = acc.getD i 0 := by
  induction n with
  | zero => rfl
  | succ n ih =>
    rw [mixGo]
    rw [applyAnchor_getD_skip C M n k mp 0 _ _ (fun j hj hij =>
      hskip n j (Nat.lt_succ_self n) hj (by omega))]
    exact ih (fun a j ha hj => hskip a j (Nat.lt_trans ha (Nat.lt_succ_self n)) hj)

/-- A covered position gets the matching checkpoint row. -/
theorem mixGo_getD_write (mp : List Int) (C M : Nat) (k : List Int) (n : Nat)
    (acc : List Int) (a j : Nat) (hlen : mp.length ≤ M) (ha : a < n)
    (hj : j < mp.length) (hpos : 0 ≤ mp.getD j 0) (hlt : a * M + j < acc.length) :
    (mixGo mp C M k n acc).getD (a * M + j) 0 =
      k.getD (a * C + (mp.getD j 0).toNat) 0 := by
  induction n with
  | zero => omega
  | succ n ih =>
    rw [mixGo]
    by_cases han : a = n
    · subst han
      have := applyAnchor_getD_write C M a k mp 0 j (mixGo mp C M k a acc) hj hpos
        (by rw [mixGo_length]; omega)
      rw [show a * M + j = a * M + (0 + j) from by omega]
      exact this
    · have ha' : a < n := by omega
      rw [applyAnchor_getD_skip C M n k mp 0 _ _ (fun j' hj' hij' => by
        exfalso
        rw [Nat.zero_add] at hij'
        exact han ((anchor_index_inj (Nat.lt_of_lt_of_le hj hlen)
          (Nat.lt_of_lt_of_le hj' hlen) hij').1))]
      exact ih ha'

/-- C2: one mixed parameter block of the weight re-indexing hook.  With the
background sentinel appended to both class lists, for every anchor group
below the inferred minimum anchor count, a destination row whose mapping
entry `c` is non-negative equals checkpoint row `a * C + c`, a destination
row with mapping entry `-1` keeps its freshly initialized value, and every
row at or beyond the mixed anchor groups keeps its freshly initialized
value. -/
theorem mixer_partial_mapping_spec
    (model_classes chkpt_classes : List String) (chkptParam modelParam : List Int)
    (mp : List Int) (C M nA : Nat)
    (hmp : mp = map_class_names (chkpt_classes ++ ["__BG__"]) (model_classes ++ ["__BG__"]))
    (_hC : C = (chkpt_classes ++ ["__BG__"]).length)
    (hM : M = (model_classes ++ ["__BG__"]).length)
    (hnA : nA = min (chkptParam.length / C) (modelParam.length / M)) :
    (∀ a m, a < nA → m < M →
      (0 ≤ mp.getD m 0 →
        (mixParam mp C M chkptParam modelParam).getD (a * M + m) 0 =
          chkptParam.getD (a * C + (mp.getD m 0).toNat) 0) ∧
      (mp.getD m 0 = -1 →
        (mixParam mp C M chkptParam modelParam).getD (a * M + m) 0 =
          modelParam.getD (a * M + m) 0)) ∧
    (∀ i, nA * M ≤ i →
      (mixParam mp C M chkptParam modelParam).getD i 0 = modelParam.getD i 0) := by
  have hlenmp : mp.length = M := by
    rw [hmp, map_class_names_length, hM]
  constructor
  · intro a m ha hm
    constructor
    · intro hpos
      unfold mixParam
      rw [← hnA]
      exact mixGo_getD_write mp C M chkptParam nA modelParam a m (le_of_eq hlenmp)
        ha (by omega) hpos
        (anchor_row_lt hm (Nat.lt_of_lt_of_le ha (by rw [hnA]; exact Nat.min_le_right _ _)))
    · intro hneg
      unfold mixParam
      rw [← hnA]
      apply mixGo_getD_skip
      intro a' j ha' hj hij
      obtain ⟨haa, hjm⟩ := anchor_index_inj hm
        (Nat.lt_of_lt_of_le hj (le_of_eq hlenmp)) hij
      rw [← hjm, hneg]
      decide
  · intro i hi
    unfold mixParam
    rw [← hnA]
    apply mixGo_getD_skip
    intro a' j ha' hj hij
    exfalso
    have hjM : j < M := Nat.lt_of_lt_of_le hj (le_of_eq hlenmp)
    have h1 : a' * M + j < (a' + 1) * M := by
      have : (a' + 1) * M = a' * M + M := by ring
      omega
    have h2 : (a' + 1) * M ≤ nA * M := Nat.mul_le_mul_right M ha'
    omega

/-- C2 witness: checkpoint classes `["a","b"]`, model classes `["a"]`,
two anchors on both sides. -/
theorem mixer_partial_mapping_spec_witness :
    (([0, 2] : List Int) =
        map_class_names (["a", "b"] ++ ["__BG__"]) (["a"] ++ ["__BG__"])) ∧
    ((3 : Nat) = ((["a", "b"] : List String) ++ ["__BG__"]).length) ∧
    ((2 : Nat) = ((["a"] : List String) ++ ["__BG__"]).length) ∧
    ((2 : Nat) = min (([5, 6, 7, 8, 9, 10] : List Int).length / 3)
      (([0, 0, 0, 0] : List Int).length / 2)) ∧
    ((∀ a m, a < 2 → m < 2 →
      (0 ≤ ([0, 2] : List Int).getD m 0 →
        (mixParam [0, 2] 3 2 [5, 6, 7, 8, 9, 10] [0, 0, 0, 0]).getD (a * 2 + m) 0 =
          ([5, 6, 7, 8, 9, 10] : List Int).getD
            (a * 3 + (([0, 2] : List Int).getD m 0).toNat) 0) ∧
      (([0, 2] : List Int).getD m 0 = -1 →
        (mixParam [0, 2] 3 2 [5, 6, 7, 8, 9, 10] [0, 0, 0, 0]).getD (a * 2 + m) 0 =
          ([0, 0, 0, 0] : List Int).getD (a * 2 + m) 0)) ∧
    (∀ i, 2 * 2 ≤ i →
      (mixParam [0, 2] 3 2 [5, 6, 7, 8, 9, 10] [0, 0, 0, 0]).getD i 0 =
        ([0, 0, 0, 0] : List Int).getD i 0)) :=
  ⟨by decide, by decide, by decide, by decide,
    mixer_partial_mapping_spec ["a"] ["a", "b"] [5, 6, 7, 8, 9, 10] [0, 0, 0, 0]
      [0, 2] 3 2 2 (by decide) (by decide) (by decide) (by decide)⟩

theorem map_class_names_self_getD (L : List String) (hnd : L.Nodup) (j : Nat)
    (hj : j < L.length) : (map_class_names L L).getD j 0 = (j : Int) := by
  rw [map_class_names_getD L L j hj]
  have hmem : L.getD j "" ∈ L := by
    rw [List.getD_eq_getElem L "" hj]; exact List.getElem_mem hj
  rw [if_pos hmem]
  have : List.indexOf (L.getD j "") L = j := by
    rw [List.getD_eq_getElem L "" hj]
    exact List.indexOf_getElem hnd j hj
  rw [this]

/-- Mixing a block into itself with the identity mapping rewrites every
covered row with its own value. -/
theorem applyAnchor_id (M a : Nat) (b ms : List Int) (m0 : Nat)
    (hms : ∀ j, j < ms.length → ms.getD j 0 = ((m0 + j : Nat) : Int))
    (hb : a * M + m0 + ms.length ≤ b.length) :
    applyAnchor M M a b ms m0 b = b := by
  induction ms generalizing m0 with
  | nil => rfl
  | cons c ms ih =>
    rw [applyAnchor]
    have hc : c = ((m0 : Nat) : Int) := by simpa using hms 0 (by simp)
    have hpos : 0 ≤ c := by rw [hc]; exact Int.natCast_nonneg m0
    rw [if_pos hpos]
    have hidx : a * M + c.toNat = a * M + m0 := by rw [hc]; simp
    have hlt : a * M + m0 < b.length := by
      have := List.length_cons c ms
      omega
    rw [hidx, set_getD_self b (a * M + m0) hlt]
    exact ih (m0 + 1) (fun j hj => by
        have := hms (j + 1) (by simpa using hj)
        rw [show (m0 + 1) + j = m0 + (j + 1) from by omega]
        simpa using this)
      (by have := List.length_cons c ms; omega)

theorem mixGo_id (mp : List Int) (M : Nat) (b : List Int) (n : Nat)
    (hmp : ∀ j, j < mp.length → mp.getD j 0 = (j : Int)) (hlen : mp.length = M)
    (hn : n ≤ b.length / M) : mixGo mp M M b n b = b := by
  induction n with
  | zero => rfl
  | succ n ih =>
    rw [mixGo, ih (by omega)]
    apply applyAnchor_id M n b mp 0 (fun j hj => by simpa using hmp j hj)
    have h1 : (n + 1) * M ≤ (b.length / M) * M := Nat.mul_le_mul_right M hn
    have h2 : (b.length / M) * M ≤ b.length := Nat.div_mul_le_self _ _
    have h3 : n * M + 0 + mp.length = (n + 1) * M := by rw [hlen]; ring
    omega

/-- C5: mixing a weight block into itself with identical (duplicate-free)
source and destination class lists — so the class mapping is the identity
and the anchor counts agree — reproduces the block exactly. -/
theorem mixer_round_trip_spec (cls : List String) (b : List Int)
    (hnd : (cls ++ ["__BG__"]).Nodup) :
    mixParam (map_class_names (cls ++ ["__BG__"]) (cls ++ ["__BG__"]))
      (cls ++ ["__BG__"]).length (cls ++ ["__BG__"]).length b b = b := by
  unfold mixParam
  rw [Nat.min_self]
  apply mixGo_id
  · intro j hj
    rw [map_class_names_length] at hj
    exact map_class_names_self_getD _ hnd j hj
  · exact map_class_names_length _ _
  · exact Nat.le_refl _

/-- C8: when the new-classes delta computed by `configure_task` is empty, the
configured hook's `sampler_flag` is `False`; and `before_epoch` of any hook
whose `sampler_flag` is `False` leaves `runner.data_loader` unchanged (no
sampler is constructed). -/
theorem sampler_disabled_spec (dst_classes old_classes : List String)
    (model_type : String) (efficient_mode : Bool) (innerOf : Nat → Option Nat)
    (runner : RunnerM) (hdelta : npSetdiff1d dst_classes old_classes = []) :
    (configuredTaskAdaptHook dst_classes old_classes model_type
      efficient_mode).sampler_flag = false ∧
    before_epoch innerOf (configuredTaskAdaptHook dst_classes old_classes
      model_type efficient_mode) runner = runner ∧
    (∀ h : TaskAdaptHook, h.sampler_flag = false →
      before_epoch innerOf h runner = runner) := by
  have hflag : (configuredTaskAdaptHook dst_classes old_classes model_type
      efficient_mode).sampler_flag = false := by
    simp [configuredTaskAdaptHook, hdelta]
  exact ⟨hflag, by simp [before_epoch, hflag],
    fun h hh => by simp [before_epoch, hh]⟩

/-- C8 witness: destination equals old classes, so the delta is empty. -/
theorem sampler_disabled_spec_witness :
    npSetdiff1d ["a", "b"] ["b", "a"] = [] ∧
    ((configuredTaskAdaptHook ["a", "b"] ["b", "a"] "SAMImageClassifier"
      false).sampler_flag = false ∧
    before_epoch (fun _ => none) (configuredTaskAdaptHook ["a", "b"] ["b", "a"]
      "SAMImageClassifier" false) ⟨⟨0, 4, 2, 1, 1, none, true⟩⟩ = ⟨⟨0, 4, 2, 1, 1, none, true⟩⟩ ∧
    (∀ h : TaskAdaptHook, h.sampler_flag = false →
      before_epoch (fun _ => none) h ⟨⟨0, 4, 2, 1, 1, none, true⟩⟩ =
        ⟨⟨0, 4, 2, 1, 1, none, true⟩⟩)) :=
  ⟨by decide, sampler_disabled_spec ["a", "b"] ["b", "a"] "SAMImageClassifier"
    false (fun _ => none) ⟨⟨0, 4, 2, 1, 1, none, true⟩⟩ (by decide)⟩

theorem mem_insertNat (x y : Nat) (l : List Nat) :
    y ∈ insertNat x l ↔ y = x ∨ y ∈ l := by
  induction l with
  | nil => simp [insertNat]
  | cons a t ih =>
    rw [insertNat]
    split
    · simp
    · rw [List.mem_cons, ih, List.mem_cons]
      tauto

theorem mem_sortNat (y : Nat) (l : List Nat) : y ∈ sortNat l ↔ y ∈ l := by
  induction l with
  | nil => simp [sortNat]
  | cons a t ih =>
    rw [sortNat, mem_insertNat, ih, List.mem_cons]

theorem mem_npUnique (y : Nat) (l : List Nat) : y ∈ npUnique l ↔ y ∈ l := by
  rw [npUnique, mem_sortNat, List.mem_dedup]

theorem pyGet_natCast (l : List Int) (c : Nat) : pyGet l (c : Int) = l.getD c 0 := by
  have h1 : ¬ ((c : Int) < 0) := by omega
  rw [pyGet, if_neg h1]
  simp

/-- The per-sample test holds exactly when some pixel, after `255 → 0`
normalization, names a class of `new_classes` — provided every new class
occurs in `['background'] + classes` and pixel values are in range. -/
theorem sampleIsNew_iff (classes new_classes : List String) (gm : List Nat)
    (hnew : ∀ n ∈ new_classes, n ∈ ("background" :: classes))
    (hpix : ∀ p ∈ gm, (if p = 255 then 0 else p) < ("background" :: classes).length) :
    sampleIsNew ("background" :: classes)
        (map_class_names ("background" :: classes) new_classes) gm = true ↔
      ∃ p ∈ gm, ("background" :: classes).getD (if p = 255 then 0 else p) "" ∈
        new_classes := by
  simp only [sampleIsNew]
  rw [List.any_eq_true]
  constructor
  · rintro ⟨v, hvmem, hv⟩
    obtain ⟨idxI, hidxmem, rfl⟩ := List.mem_map.mp hvmem
    obtain ⟨k, hk, hkeq⟩ := List.mem_iff_getElem.mp hidxmem
    have hklen : k < new_classes.length := by
      have := map_class_names_length ("background" :: classes) new_classes
      omega
    have hkval : (map_class_names ("background" :: classes) new_classes).getD k 0 = idxI := by
      rw [List.getD_eq_getElem _ _ hk]; exact hkeq
    have hnmemN : new_classes.getD k "" ∈ new_classes := by
      rw [List.getD_eq_getElem _ _ hklen]; exact List.getElem_mem hklen
    have hnmem : new_classes.getD k "" ∈ ("background" :: classes) := hnew _ hnmemN
    have hidxval : idxI =
        ((List.indexOf (new_classes.getD k "") ("background" :: classes) : Nat) : Int) := by
      rw [← hkval, map_class_names_getD _ _ k hklen, if_pos hnmem]
    have hc : List.indexOf (new_classes.getD k "") ("background" :: classes) <
        ("background" :: classes).length := List.indexOf_lt_length.mpr hnmem
    rw [hidxval, pyGet_natCast, bne_iff_ne] at hv
    rw [map_class_names_getD _ _ _ hc] at hv
    have hgetc : ("background" :: classes).getD
        (List.indexOf (new_classes.getD k "") ("background" :: classes)) "" =
        new_classes.getD k "" := by
      rw [List.getD_eq_getElem _ _ hc]
      exact List.getElem_indexOf hc
    rw [hgetc] at hv
    by_cases hls : new_classes.getD k "" ∈
        (npUnique (gm.map (fun p => if p = 255 then 0 else p))).map
          (fun i => ("background" :: classes).getD i "")
    · obtain ⟨v', hv'gt, hv'⟩ := List.mem_map.mp hls
      have hv'gm : v' ∈ gm.map (fun p => if p = 255 then 0 else p) :=
        (mem_npUnique _ _).mp hv'gt
      obtain ⟨p, hp, rfl⟩ := List.mem_map.mp hv'gm
      exact ⟨p, hp, by rw [hv']; exact hnmemN⟩
    · rw [if_neg hls] at hv
      exact absurd rfl hv
  · rintro ⟨p, hp, hpn⟩
    obtain ⟨k, hk, hkeq⟩ := List.mem_iff_getElem.mp hpn
    have hkgetD : new_classes.getD k "" =
        ("background" :: classes).getD (if p = 255 then 0 else p) "" := by
      rw [List.getD_eq_getElem _ _ hk]; exact hkeq
    have hnp : (if p = 255 then 0 else p) < ("background" :: classes).length := hpix p hp
    have hnmem : new_classes.getD k "" ∈ ("background" :: classes) := by
      rw [hkgetD, List.getD_eq_getElem _ _ hnp]
      exact List.getElem_mem hnp
    have hc : List.indexOf (new_classes.getD k "") ("background" :: classes) <
        ("background" :: classes).length := List.indexOf_lt_length.mpr hnmem
    have hklen : k < (map_class_names ("background" :: classes) new_classes).length := by
      rw [map_class_names_length]; exact hk
    refine ⟨pyGet (map_class_names
        ((npUnique (gm.map (fun p => if p = 255 then 0 else p))).map
          (fun i => ("background" :: classes).getD i ""))
        ("background" :: classes))
        ((map_class_names ("background" :: classes) new_classes).getD k 0), ?_, ?_⟩
    · exact List.mem_map.mpr ⟨_, by
        rw [List.getD_eq_getElem _ _ hklen]; exact List.getElem_mem hklen, rfl⟩
    · rw [map_class_names_getD _ _ k hk, if_pos hnmem, pyGet_natCast,
        map_class_names_getD _ _ _ hc, bne_iff_ne]
      have hgetc : ("background" :: classes).getD
          (List.indexOf (new_classes.getD k "") ("background" :: classes)) "" =
          new_classes.getD k "" := by
        rw [List.getD_eq_getElem _ _ hc]
        exact List.getElem_indexOf hc
      rw [hgetc]
      have hls : new_classes.getD k "" ∈
          (npUnique (gm.map (fun q => if q = 255 then 0 else q))).map
            (fun i => ("background" :: classes).getD i "") := by
        refine List.mem_map.mpr ⟨(if p = 255 then 0 else p), ?_, hkgetD.symm⟩
        exact (mem_npUnique _ _).mpr (List.mem_map.mpr ⟨p, hp, rfl⟩)
      rw [if_pos hls]
      omega

theorem partition_foldl (cond : Nat → Bool) (n : Nat) (acc : List Nat × List Nat) :
    (List.range n).foldl
      (fun acc idx => if cond idx then (acc.1, acc.2 ++ [idx])
        else (acc.1 ++ [idx], acc.2)) acc =
    (acc.1 ++ (List.range n).filter (fun i => !cond i),
     acc.2 ++ (List.range n).filter cond) := by
  induction n with
  | zero => simp
  | succ n ih =>
    rw [List.range_succ, List.foldl_append, ih]
    by_cases hc : cond n <;> simp [hc, List.filter_append]

/-- C6: `SegIncrVOCDataset.statistics` puts every sample index into exactly
one of `img_indices['old']` and `img_indices['new']`, and a sample lands in
`new` iff its ground-truth map, after `255 → 0` normalization, has a pixel
whose class name is among the new classes; hypotheses: pixel values are in
range of `['background'] + classes` and every new class occurs there. -/
theorem statistics_partition_spec (classes new_classes : List String)
    (gt_seg_maps : List (List Nat))
    (hnew : ∀ n ∈ new_classes, n ∈ ("background" :: classes))
    (hpix : ∀ gm ∈ gt_seg_maps, ∀ p ∈ gm,
      (if p = 255 then 0 else p) < ("background" :: classes).length) :
    (∀ idx, idx < gt_seg_maps.length →
      ((idx ∈ (statistics classes new_classes gt_seg_maps).2 ↔
        ∃ p ∈ gt_seg_maps.getD idx [],
          ("background" :: classes).getD (if p = 255 then 0 else p) "" ∈ new_classes) ∧
       (idx ∈ (statistics classes new_classes gt_seg_maps).1 ↔
        ¬ ∃ p ∈ gt_seg_maps.getD idx [],
          ("background" :: classes).getD (if p = 255 then 0 else p) "" ∈ new_classes))) ∧
    (∀ idx, idx ∈ (statistics classes new_classes gt_seg_maps).1 ∨
        idx ∈ (statistics classes new_classes gt_seg_maps).2 →
      idx < gt_seg_maps.length) ∧
    (statistics classes new_classes gt_seg_maps).1.Nodup ∧
    (statistics classes new_classes gt_seg_maps).2.Nodup := by
  have hstat : statistics classes new_classes gt_seg_maps =
      ((List.range gt_seg_maps.length).filter (fun idx =>
        !(sampleIsNew ("background" :: classes)
          (map_class_names ("background" :: classes) new_classes)
          (gt_seg_maps.getD idx []))),
       (List.range gt_seg_maps.length).filter (fun idx =>
        sampleIsNew ("background" :: classes)
          (map_class_names ("background" :: classes) new_classes)
          (gt_seg_maps.getD idx []))) := by
    unfold statistics
    rw [partition_foldl]
    simp
  have hiff : ∀ idx, idx < gt_seg_maps.length →
      (sampleIsNew ("background" :: classes)
        (map_class_names ("background" :: classes) new_classes)
        (gt_seg_maps.getD idx []) = true ↔
      ∃ p ∈ gt_seg_maps.getD idx [],
        ("background" :: classes).getD (if p = 255 then 0 else p) "" ∈ new_classes) := by
    intro idx hidx
    apply sampleIsNew_iff classes new_classes _ hnew
    apply hpix
    rw [List.getD_eq_getElem _ _ hidx]
    exact List.getElem_mem hidx
  refine ⟨?_, ?_, ?_, ?_⟩
  · intro idx hidx
    constructor
    · rw [hstat, List.mem_filter, List.mem_range]
      rw [← hiff idx hidx]
      constructor
      · exact fun hx => hx.2
      · exact fun hx => ⟨hidx, hx⟩
    · rw [hstat, List.mem_filter, List.mem_range]
      rw [← hiff idx hidx]
      constructor
      · intro hx
        simpa using hx.2
      · intro hx
        exact ⟨hidx, by simpa using hx⟩
  · intro idx hidx
    rcases hidx with hidx | hidx <;>
      [rw [hstat] at hidx; rw [hstat] at hidx] <;>
      exact List.mem_range.mp (List.mem_filter.mp hidx).1
  · rw [hstat]
    exact (List.nodup_range _).filter _
  · rw [hstat]
    exact (List.nodup_range _).filter _

/-- C6 witness: one class `"cat"` that is also new; the first map shows a
cat pixel, the second only background. -/
theorem statistics_partition_spec_witness :
    (∀ n ∈ (["cat"] : List String), n ∈ ("background" :: ["cat"])) ∧
    (∀ gm ∈ ([[0, 1], [0]] : List (List Nat)), ∀ p ∈ gm,
      (if p = 255 then 0 else p) < ("background" :: ["cat"]).length) ∧
    ((∀ idx, idx < ([[0, 1], [0]] : List (List Nat)).length →
      ((idx ∈ (statistics ["cat"] ["cat"] [[0, 1], [0]]).2 ↔
        ∃ p ∈ ([[0, 1], [0]] : List (List Nat)).getD idx [],
          ("background" :: ["cat"]).getD (if p = 255 then 0 else p) "" ∈
            (["cat"] : List String)) ∧
       (idx ∈ (statistics ["cat"] ["cat"] [[0, 1], [0]]).1 ↔
        ¬ ∃ p ∈ ([[0, 1], [0]] : List (List Nat)).getD idx [],
          ("background" :: ["cat"]).getD (if p = 255 then 0 else p) "" ∈
            (["cat"] : List String)))) ∧
    (∀ idx, idx ∈ (statistics ["cat"] ["cat"] [[0, 1], [0]]).1 ∨
        idx ∈ (statistics ["cat"] ["cat"] [[0, 1], [0]]).2 →
      idx < ([[0, 1], [0]] : List (List Nat)).length) ∧
    (statistics ["cat"] ["cat"] [[0, 1], [0]]).1.Nodup ∧
    (statistics ["cat"] ["cat"] [[0, 1], [0]]).2.Nodup) :=
  ⟨by decide, by decide,
    statistics_partition_spec ["cat"] ["cat"] [[0, 1], [0]] (by decide) (by decide)⟩

theorem str_append_cancel (p a b : String) (h : p ++ a = p ++ b) : a = b := by
  have hd := congrArg String.data h
  simp only [String.data_append] at hd
  exact String.ext (List.append_cancel_left hd)

theorem processParams_found_true (md : StateDict) (mp : List Int) (C M : Nat)
    (pfx : String) (level : Nat) : ∀ (ts : List (String × String)) (cd : StateDict),
    (processParams md mp C M pfx level ts true cd).2.1 = true := by
  intro ts
  induction ts with
  | nil => intro cd; rfl
  | cons t ts ih =>
    intro cd
    simp only [processParams]
    cases md (fmtName t level) with
    | none => rfl
    | some mparam =>
      cases cd (pfx ++ fmtName t level) with
      | none => rfl
      | some cparam => exact ih _

theorem processParams_found (md : StateDict) (mp : List Int) (C M : Nat)
    (pfx : String) (level : Nat) (ps : List (String × String)) (cd : StateDict) :
    (processParams md mp C M pfx level ps false cd).2.1 =
      !(firstNameMissing md cd pfx ps level) := by
  cases ps with
  | nil => rfl
  | cons t ts =>
    simp only [processParams, firstNameMissing]
    cases md (fmtName t level) with
    | none => rfl
    | some mparam =>
      cases cd (pfx ++ fmtName t level) with
      | none => rfl
      | some cparam => simp [processParams_found_true]

theorem processParams_break (md : StateDict) (mp : List Int) (C M : Nat)
    (pfx : String) (level : Nat) (ps : List (String × String)) (cd : StateDict)
    (hmiss : firstNameMissing md cd pfx ps level = true) :
    (processParams md mp C M pfx level ps false cd).1 = cd := by
  cases ps with
  | nil => rfl
  | cons t ts =>
    simp only [firstNameMissing] at hmiss
    simp only [processParams]
    cases hmd : md (fmtName t level) with
    | none => rfl
    | some mparam =>
      cases hcd : cd (pfx ++ fmtName t level) with
      | none => rfl
      | some cparam => rw [hmd, hcd] at hmiss; simp at hmiss

theorem processParams_probes (md : StateDict) (mp : List Int) (C M : Nat)
    (pfx : String) (level : Nat) : ∀ (ts : List (String × String)) (found : Bool)
    (cd : StateDict), ∀ k ∈ (processParams md mp C M pfx level ts found cd).2.2,
      ∃ t ∈ ts, k = fmtName t level ∨ k = pfx ++ fmtName t level := by
  intro ts
  induction ts with
  | nil => intro found cd k hk; simp [processParams] at hk
  | cons t ts ih =>
    intro found cd k hk
    simp only [processParams] at hk
    revert hk
    cases md (fmtName t level) with
    | none =>
      intro hk
      simp only [List.mem_cons, List.mem_singleton] at hk
      rcases hk with h | h | h
      · exact ⟨t, List.mem_cons_self t ts, Or.inl h⟩
      · exact ⟨t, List.mem_cons_self t ts, Or.inr h⟩
      · simp at h
    | some mparam =>
      cases cd (pfx ++ fmtName t level) with
      | none =>
        intro hk
        simp only [List.mem_cons, List.mem_singleton] at hk
        rcases hk with h | h | h
        · exact ⟨t, List.mem_cons_self t ts, Or.inl h⟩
        · exact ⟨t, List.mem_cons_self t ts, Or.inr h⟩
        · simp at h
      | some cparam =>
        intro hk
        simp only [List.mem_cons] at hk
        rcases hk with h | h | h
        · exact ⟨t, List.mem_cons_self t ts, Or.inl h⟩
        · exact ⟨t, List.mem_cons_self t ts, Or.inr h⟩
        · obtain ⟨t', ht', hp⟩ := ih true _ k h
          exact ⟨t', List.mem_cons_of_mem t ht', hp⟩

theorem processParams_writes (md : StateDict) (mp : List Int) (C M : Nat)
    (pfx : String) (level : Nat) : ∀ (ts : List (String × String)) (found : Bool)
    (cd : StateDict), ∀ k, (processParams md mp C M pfx level ts found cd).1 k ≠ cd k →
      ∃ t ∈ ts, k = pfx ++ fmtName t level := by
  intro ts
  induction ts with
  | nil => intro found cd k hk; exact absurd rfl hk
  | cons t ts ih =>
    intro found cd k hk
    simp only [processParams] at hk
    revert hk
    cases md (fmtName t level) with
    | none => intro hk; exact absurd rfl hk
    | some mparam =>
      cases cd (pfx ++ fmtName t level) with
      | none => intro hk; exact absurd rfl hk
      | some cparam =>
        intro hk
        by_cases hmid : (processParams md mp C M pfx level ts true
            (updateDict cd (pfx ++ fmtName t level) (mixParam mp C M cparam mparam))).1 k =
            updateDict cd (pfx ++ fmtName t level) (mixParam mp C M cparam mparam) k
        · rw [hmid] at hk
          by_cases hkey : k = pfx ++ fmtName t level
          · exact ⟨t, List.mem_cons_self t ts, hkey⟩
          · rw [updateDict, if_neg hkey] at hk
            exact absurd rfl hk
        · obtain ⟨t', ht', hp⟩ := ih true _ k hmid
          exact ⟨t', List.mem_cons_of_mem t ht', hp⟩

theorem stopLevelAux_ge (md cd : StateDict) (pfx : String)
    (ps : List (String × String)) : ∀ fuel level,
    level ≤ stopLevelAux md cd pfx ps fuel level := by
  intro fuel
  induction fuel with
  | zero => intro level; exact Nat.le_refl _
  | succ fuel ih =>
    intro level
    rw [stopLevelAux]
    split
    · exact Nat.le_refl _
    · exact Nat.le_trans (Nat.le_succ _) (ih (level + 1))

/-- Invariant proof for the level loop: every probed key belongs to a level
at most the stop level (and below 10), and every written key to a level
strictly below it. -/
theorem runLevels_spec (md : StateDict) (mp : List Int) (C M : Nat) (pfx : String)
    (ps : List (String × String)) (cd0 : StateDict)
    (hkeys : ∀ t ∈ ps, ∀ t' ∈ ps, ∀ l l' : Nat, l < 10 → l' < 10 →
      pfx ++ fmtName t l = pfx ++ fmtName t' l' → l = l') :
    ∀ fuel level cd, fuel + level = 10 →
    (∀ t ∈ ps, ∀ l, level ≤ l → l < 10 →
      cd (pfx ++ fmtName t l) = cd0 (pfx ++ fmtName t l)) →
    ((∀ k ∈ (runLevels md mp C M pfx ps fuel level cd).2,
      ∃ l, level ≤ l ∧ l < 10 ∧ l ≤ stopLevelAux md cd0 pfx ps fuel level ∧
        ∃ t ∈ ps, (k = fmtName t l ∨ k = pfx ++ fmtName t l)) ∧
     (∀ k, (runLevels md mp C M pfx ps fuel level cd).1 k ≠ cd k →
      ∃ l, level ≤ l ∧ l < 10 ∧ l < stopLevelAux md cd0 pfx ps fuel level ∧
        ∃ t ∈ ps, k = pfx ++ fmtName t l)) := by
  intro fuel
  induction fuel with
  | zero =>
    intro level cd hsum hagree
    constructor
    · intro k hk; simp [runLevels] at hk
    · intro k hk; exact absurd rfl hk
  | succ fuel ih =>
    intro level cd hsum hagree
    have hlevel10 : level < 10 := by omega
    have hmatch : firstNameMissing md cd pfx ps level =
        firstNameMissing md cd0 pfx ps level := by
      cases ps with
      | nil => rfl
      | cons t ts =>
        simp only [firstNameMissing]
        rw [hagree t (List.mem_cons_self t ts) level (Nat.le_refl _) hlevel10]
    have hfound := processParams_found md mp C M pfx level ps cd
    by_cases hmiss : firstNameMissing md cd0 pfx ps level = true
    · have hf : (processParams md mp C M pfx level ps false cd).2.1 = false := by
        rw [hfound, hmatch, hmiss]; rfl
      have hstop : stopLevelAux md cd0 pfx ps (fuel + 1) level = level := by
        rw [stopLevelAux, if_pos hmiss]
      constructor
      · intro k hk
        rw [runLevels, if_neg (by rw [hf]; exact Bool.false_ne_true)] at hk
        obtain ⟨t, ht, hp⟩ := processParams_probes md mp C M pfx level ps false cd k hk
        exact ⟨level, Nat.le_refl _, hlevel10, by rw [hstop], t, ht, hp⟩
      · intro k hk
        rw [runLevels, if_neg (by rw [hf]; exact Bool.false_ne_true)] at hk
        rw [processParams_break md mp C M pfx level ps cd (by rw [hmatch]; exact hmiss)] at hk
        exact absurd rfl hk
    · have hmiss' : firstNameMissing md cd0 pfx ps level = false :=
        Bool.not_eq_true _ ▸ (Bool.eq_false_iff.mpr hmiss)
      have hf : (processParams md mp C M pfx level ps false cd).2.1 = true := by
        rw [hfound, hmatch, hmiss']; rfl
      have hstop : stopLevelAux md cd0 pfx ps (fuel + 1) level =
          stopLevelAux md cd0 pfx ps fuel (level + 1) := by
        rw [stopLevelAux, if_neg (by rw [hmiss']; exact Bool.false_ne_true)]
      have hagree' : ∀ t ∈ ps, ∀ l, level + 1 ≤ l → l < 10 →
          (processParams md mp C M pfx level ps false cd).1 (pfx ++ fmtName t l) =
          cd0 (pfx ++ fmtName t l) := by
        intro t ht l hl hl10
        by_cases hch : (processParams md mp C M pfx level ps false cd).1
            (pfx ++ fmtName t l) = cd (pfx ++ fmtName t l)
        · rw [hch]; exact hagree t ht l (by omega) hl10
        · obtain ⟨t', ht', hp⟩ := processParams_writes md mp C M pfx level ps false cd _ hch
          have := hkeys t ht t' ht' l level hl10 hlevel10 hp
          omega
      obtain ⟨ihpr, ihwr⟩ := ih (level + 1)
        (processParams md mp C M pfx level ps false cd).1 (by omega) hagree'
      constructor
      · intro k hk
        rw [runLevels, if_pos hf] at hk
        rw [List.mem_append] at hk
        rcases hk with hk | hk
        · obtain ⟨t, ht, hp⟩ := processParams_probes md mp C M pfx level ps false cd k hk
          refine ⟨level, Nat.le_refl _, hlevel10, ?_, t, ht, hp⟩
          rw [hstop]
          exact Nat.le_trans (Nat.le_succ _) (stopLevelAux_ge md cd0 pfx ps fuel (level + 1))
        · obtain ⟨l, hl1, hl2, hl3, hrest⟩ := ihpr k hk
          exact ⟨l, by omega, hl2, by rw [hstop]; exact hl3, hrest⟩
      · intro k hk
        rw [runLevels, if_pos hf] at hk
        by_cases hch : (runLevels md mp C M pfx ps fuel (level + 1)
            (processParams md mp C M pfx level ps false cd).1).1 k =
            (processParams md mp C M pfx level ps false cd).1 k
        · rw [hch] at hk
          obtain ⟨t, ht, hp⟩ := processParams_writes md mp C M pfx level ps false cd k hk
          refine ⟨level, Nat.le_refl _, hlevel10, ?_, t, ht, hp⟩
          rw [hstop]
          exact Nat.lt_of_lt_of_le (Nat.lt_succ_self _)
            (stopLevelAux_ge md cd0 pfx ps fuel (level + 1))
        · obtain ⟨l, hl1, hl2, hl3, hrest⟩ := ihwr k hch
          exact ⟨l, by omega, hl2, by rw [hstop]; exact hl3, hrest⟩

/-- C9: the weight re-indexing hook probes at most 10 head levels: every key
it looks up in either state dict is one of the two pattern-probe keys or a
parameter name of a level `l < 10` with `l` at most the stop level — the
first level whose first probed parameter name is missing from either dict —
and every key it rewrites is a checkpoint parameter name of a level strictly
below the stop level; all later levels' parameters are untouched. -/
theorem hook_level_probe_spec (model_classes chkpt_classes : List String)
    (md cd : StateDict) (pfx : String) (k : String) :
    (k ∈ (load_state_dict_pre_hook model_classes chkpt_classes md cd pfx).2 →
      (k = pfx ++ "bbox_head.cls_convs.0.weight" ∨
       k = pfx ++ "bbox_head.cls_convs.0.0.weight" ∨
       ∃ l, l < 10 ∧ l ≤ stopLevel md cd pfx (hookParams cd pfx) ∧
         ∃ t ∈ hookParams cd pfx, (k = fmtName t l ∨ k = pfx ++ fmtName t l))) ∧
    ((load_state_dict_pre_hook model_classes chkpt_classes md cd pfx).1 k ≠ cd k →
      ∃ l, l < 10 ∧ l < stopLevel md cd pfx (hookParams cd pfx) ∧
        ∃ t ∈ hookParams cd pfx, k = pfx ++ fmtName t l) := by
  have hA : ∀ t ∈ paramNamesPlain, ∀ t' ∈ paramNamesPlain,
      ∀ l < 10, ∀ l' < 10, fmtName t l = fmtName t' l' → l = l' := by decide
  have hB : ∀ t ∈ paramNamesDW, ∀ t' ∈ paramNamesDW,
      ∀ l < 10, ∀ l' < 10, fmtName t l = fmtName t' l' → l = l' := by decide
  have hkeys : ∀ t ∈ hookParams cd pfx, ∀ t' ∈ hookParams cd pfx,
      ∀ l l' : Nat, l < 10 → l' < 10 →
      pfx ++ fmtName t l = pfx ++ fmtName t' l' → l = l' := by
    intro t ht t' ht' l l' hl hl' heq
    have heq' : fmtName t l = fmtName t' l' := str_append_cancel pfx _ _ heq
    unfold hookParams at ht ht'
    by_cases h1 : (cd (pfx ++ "bbox_head.cls_convs.0.weight")).isSome
    · rw [if_pos h1] at ht ht'
      exact hA t ht t' ht' l hl l' hl' heq'
    · rw [if_neg h1] at ht ht'
      by_cases h2 : (cd (pfx ++ "bbox_head.cls_convs.0.0.weight")).isSome
      · rw [if_pos h2] at ht ht'
        exact hB t ht t' ht' l hl l' hl' heq'
      · rw [if_neg h2] at ht
        simp at ht
  obtain ⟨hpr, hwr⟩ := runLevels_spec md
    (map_class_names (chkpt_classes ++ ["__BG__"]) (model_classes ++ ["__BG__"]))
    (chkpt_classes ++ ["__BG__"]).length (model_classes ++ ["__BG__"]).length
    pfx (hookParams cd pfx) cd hkeys 10 0 cd rfl (fun _ _ _ _ _ => rfl)
  constructor
  · intro hk
    simp only [load_state_dict_pre_hook, List.mem_cons] at hk
    rcases hk with h | h | h
    · exact Or.inl h
    · exact Or.inr (Or.inl h)
    · obtain ⟨l, _, hl10, hlstop, rest⟩ := hpr k h
      exact Or.inr (Or.inr ⟨l, hl10, hlstop, rest⟩)
  · intro hk
    obtain ⟨l, _, hl10, hlstop, rest⟩ := hwr k hk
    exact ⟨l, hl10, hlstop, rest⟩

/-- C9 witness: a checkpoint and model with only the first level-0
plain-conv weight; the first probed key is in the probe list, and the
conclusion follows from the theorem. -/
theorem hook_level_probe_spec_witness :
    ("p.bbox_head.cls_convs.0.weight" ∈
      (load_state_dict_pre_hook ["a"] ["a"]
        (fun s => if s = "bbox_head.cls_convs.0.weight" then some [1, 2] else none)
        (fun s => if s = "p.bbox_head.cls_convs.0.weight" then some [3, 4] else none)
        "p.").2) ∧
    ("p.bbox_head.cls_convs.0.weight" = "p." ++ "bbox_head.cls_convs.0.weight" ∨
     "p.bbox_head.cls_convs.0.weight" = "p." ++ "bbox_head.cls_convs.0.0.weight" ∨
     ∃ l, l < 10 ∧ l ≤ stopLevel
        (fun s => if s = "bbox_head.cls_convs.0.weight" then some [1, 2] else none)
        (fun s => if s = "p.bbox_head.cls_convs.0.weight" then some [3, 4] else none)
        "p." (hookParams
          (fun s => if s = "p.bbox_head.cls_convs.0.weight" then some [3, 4] else none)
          "p.") ∧
       ∃ t ∈ hookParams
          (fun s => if s = "p.bbox_head.cls_convs.0.weight" then some [3, 4] else none)
          "p.",
         ("p.bbox_head.cls_convs.0.weight" = fmtName t l ∨
          "p.bbox_head.cls_convs.0.weight" = "p." ++ fmtName t l)) :=
  ⟨by decide,
   (hook_level_probe_spec ["a"] ["a"]
      (fun s => if s = "bbox_head.cls_convs.0.weight" then some [1, 2] else none)
      (fun s => if s = "p.bbox_head.cls_convs.0.weight" then some [3, 4] else none)
      "p." "p.bbox_head.cls_convs.0.weight").1 (by decide)⟩

theorem dictSetRef_snd (d : List (String × Nat)) (k : String) (r : Nat) :
    ∀ p ∈ dictSetRef d k r, p.2 = r ∨ p ∈ d := by
  intro p hp
  rw [dictSetRef] at hp
  split at hp
  · obtain ⟨q, hq, hpq⟩ := List.mem_map.mp hp
    by_cases hk : q.1 = k
    · rw [if_pos hk] at hpq
      left; rw [← hpq]
    · rw [if_neg hk] at hpq
      right; rw [← hpq]; exact hq
  · rw [List.mem_append] at hp
    rcases hp with h | h
    · right; exact h
    · left
      have : p = (k, r) := List.mem_singleton.mp h
      rw [this]

theorem deepcopyEntries_spec : ∀ (entries : List (String × Nat)) (σ : PyHeap),
    σ.next ≤ (deepcopyEntries σ entries).2.next ∧
    (∀ r, r < σ.next →
      (deepcopyEntries σ entries).2.lists r = σ.lists r ∧
      (deepcopyEntries σ entries).2.dicts r = σ.dicts r) ∧
    (∀ p ∈ (deepcopyEntries σ entries).1, σ.next ≤ p.2) := by
  intro entries
  induction entries with
  | nil =>
    intro σ
    exact ⟨Nat.le_refl _, fun r _ => ⟨rfl, rfl⟩, by simp [deepcopyEntries]⟩
  | cons e rest ih =>
    intro σ
    obtain ⟨nm, r0⟩ := e
    obtain ⟨ih1, ih2, ih3⟩ := ih (allocList σ (σ.lists r0)).2
    have hnext : (allocList σ (σ.lists r0)).2.next = σ.next + 1 := rfl
    refine ⟨?_, ?_, ?_⟩
    · show σ.next ≤ (deepcopyEntries (allocList σ (σ.lists r0)).2 rest).2.next
      omega
    · intro r hr
      obtain ⟨hl, hd⟩ := ih2 r (by omega)
      constructor
      · show (deepcopyEntries (allocList σ (σ.lists r0)).2 rest).2.lists r = σ.lists r
        rw [hl]
        show (if r = σ.next then σ.lists r0 else σ.lists r) = σ.lists r
        rw [if_neg (by omega)]
      · show (deepcopyEntries (allocList σ (σ.lists r0)).2 rest).2.dicts r = σ.dicts r
        rw [hd]
        rfl
    · intro p hp
      have hp' : p ∈ (nm, (allocList σ (σ.lists r0)).1) ::
          (deepcopyEntries (allocList σ (σ.lists r0)).2 rest).1 := hp
      rcases List.mem_cons.mp hp' with h | h
      · rw [h]
        exact Nat.le_refl _
      · have := ih3 p h
        omega

theorem mergeTaskH_spec (σ : PyHeap) (rModel : Nat) (nm : String) (rCls : Nat) :
    σ.next ≤ (mergeTaskH σ rModel nm rCls).next ∧
    (∀ r, r < σ.next → (mergeTaskH σ rModel nm rCls).lists r = σ.lists r) ∧
    (∀ r, r < σ.next → r ≠ rModel →
      (mergeTaskH σ rModel nm rCls).dicts r = σ.dicts r) ∧
    (∀ p ∈ (mergeTaskH σ rModel nm rCls).dicts rModel,
      p.2 = rCls ∨ σ.next ≤ p.2 ∨ p ∈ σ.dicts rModel) := by
  rw [mergeTaskH]
  split
  · rename_i r0 hlk
    by_cases hemp : σ.lists r0 = []
    · rw [if_pos hemp]
      refine ⟨Nat.le_refl _, fun r _ => rfl, fun r _ hr => if_neg hr, ?_⟩
      intro p hp
      have hp' : p ∈ dictSetRef (σ.dicts rModel) nm rCls := by
        simpa [writeDict] using hp
      rcases dictSetRef_snd _ _ _ p hp' with h | h
      · exact Or.inl h
      · exact Or.inr (Or.inr h)
    · rw [if_neg hemp]
      refine ⟨Nat.le_succ _, ?_, ?_, ?_⟩
      · intro r hr
        show (if r = σ.next then _ else σ.lists r) = σ.lists r
        rw [if_neg (by omega)]
      · intro r _ hr
        exact if_neg hr
      · intro p hp
        have hp' : p ∈ dictSetRef (σ.dicts rModel) nm σ.next := by
          simpa [writeDict, allocList] using hp
        rcases dictSetRef_snd _ _ _ p hp' with h | h
        · exact Or.inr (Or.inl (Nat.le_of_eq h.symm))
        · exact Or.inr (Or.inr h)
  · refine ⟨Nat.le_refl _, fun r _ => rfl, fun r _ hr => if_neg hr, ?_⟩
    intro p hp
    have hp' : p ∈ dictSetRef (σ.dicts rModel) nm rCls := by
      simpa [writeDict] using hp
    rcases dictSetRef_snd _ _ _ p hp' with h | h
    · exact Or.inl h
    · exact Or.inr (Or.inr h)

theorem mergeLoop_spec (rModel N : Nat) (newRefs : List Nat) :
    ∀ (entries : List (String × Nat)) (σc : PyHeap),
    N ≤ σc.next → N ≤ rModel →
    (∀ p ∈ entries, p.2 ∈ newRefs) →
    (∀ p ∈ σc.dicts rModel, N ≤ p.2 ∨ p.2 ∈ newRefs) →
    (N ≤ (entries.foldl (fun σ p => mergeTaskH σ rModel p.1 p.2) σc).next ∧
     (∀ r, r < N →
       (entries.foldl (fun σ p => mergeTaskH σ rModel p.1 p.2) σc).lists r =
         σc.lists r ∧
       (entries.foldl (fun σ p => mergeTaskH σ rModel p.1 p.2) σc).dicts r =
         σc.dicts r) ∧
     (∀ p ∈ (entries.foldl (fun σ p => mergeTaskH σ rModel p.1 p.2) σc).dicts rModel,
       N ≤ p.2 ∨ p.2 ∈ newRefs)) := by
  intro entries
  induction entries with
  | nil =>
    intro σc h1 _ _ h4
    exact ⟨h1, fun r _ => ⟨rfl, rfl⟩, h4⟩
  | cons e rest ih =>
    intro σc h1 h2 h3 h4
    simp only [List.foldl_cons]
    obtain ⟨hm1, hm2, hm3, hm4⟩ := mergeTaskH_spec σc rModel e.1 e.2
    have h4' : ∀ p ∈ (mergeTaskH σc rModel e.1 e.2).dicts rModel,
        N ≤ p.2 ∨ p.2 ∈ newRefs := by
      intro p hp
      rcases hm4 p hp with h | h | h
      · exact Or.inr (h ▸ h3 e (List.mem_cons_self e rest))
      · exact Or.inl (by omega)
      · exact h4 p h
    obtain ⟨ihr1, ihr2, ihr3⟩ := ih (mergeTaskH σc rModel e.1 e.2)
      (Nat.le_trans h1 hm1) h2
      (fun p hp => h3 p (List.mem_cons_of_mem e hp)) h4'
    refine ⟨ihr1, ?_, ihr3⟩
    intro r hr
    obtain ⟨hl, hd⟩ := ihr2 r hr
    rw [hl, hd, hm2 r (by omega), hm3 r (by omega) (by omega)]
    exact ⟨rfl, rfl⟩

/-- C10: neither refiner mutates any pre-existing heap object (so the
train config's `new_classes`/`tasks` and the metadata's `CLASSES`/`tasks`
are unchanged by a call), and the destination task dict returned by MERGE
is a fresh object none of whose class-list references is shared with the
metadata's task dict — so mutating it never alters `meta['tasks']`.
Hypotheses: the metadata dict and its class lists pre-exist, and the train
config's task lists do not alias the metadata's (they come from different
sources). -/
theorem refine_no_mutation_spec (σ : PyHeap) (rNew rOld rNewT rMetaT : Nat)
    (adapt_type : String) (hMeta : rMetaT < σ.next)
    (hmetaRefs : ∀ q ∈ σ.dicts rMetaT, q.2 < σ.next)
    (hdisj : ∀ p ∈ σ.dicts rNewT, ∀ q ∈ σ.dicts rMetaT, p.2 ≠ q.2) :
    (∀ res σ', refine_clsH σ rNew rOld adapt_type = .ok (res, σ') →
      ∀ r, r < σ.next → σ'.lists r = σ.lists r ∧ σ'.dicts r = σ.dicts r) ∧
    (∀ res σ', refine_tasksH σ rNewT rMetaT adapt_type = .ok (res, σ') →
      ∀ r, r < σ.next → σ'.lists r = σ.lists r ∧ σ'.dicts r = σ.dicts r) ∧
    (∀ res σ', refine_tasksH σ rNewT rMetaT "MERGE" = .ok (res, σ') →
      σ.next ≤ res.1 ∧ res.1 ≠ rMetaT ∧
      ∀ p ∈ σ'.dicts res.1, ∀ q ∈ σ.dicts rMetaT, p.2 ≠ q.2) := by
  have hmergeCore : ∀ res σ', refine_tasksH σ rNewT rMetaT "MERGE" = .ok (res, σ') →
      res.1 = (allocDict (deepcopyEntries σ (σ.dicts rMetaT)).2
        (deepcopyEntries σ (σ.dicts rMetaT)).1).1 ∧
      σ' = (σ.dicts rNewT).foldl
        (fun σc p => mergeTaskH σc
          (allocDict (deepcopyEntries σ (σ.dicts rMetaT)).2
            (deepcopyEntries σ (σ.dicts rMetaT)).1).1 p.1 p.2)
        (allocDict (deepcopyEntries σ (σ.dicts rMetaT)).2
          (deepcopyEntries σ (σ.dicts rMetaT)).1).2 := by
    intro res σ' heq
    rw [refine_tasksH] at heq
    rw [if_neg (by decide), if_pos rfl] at heq
    simp only [Except.ok.injEq, Prod.mk.injEq] at heq
    obtain ⟨h1, h2⟩ := heq
    exact ⟨by rw [← h1], h2.symm⟩
  obtain ⟨hdc1, hdc2, hdc3⟩ := deepcopyEntries_spec (σ.dicts rMetaT) σ
  have hS1next : σ.next ≤ (deepcopyEntries σ (σ.dicts rMetaT)).2.next := hdc1
  have hloop := mergeLoop_spec
    (allocDict (deepcopyEntries σ (σ.dicts rMetaT)).2
      (deepcopyEntries σ (σ.dicts rMetaT)).1).1 σ.next
    ((σ.dicts rNewT).map Prod.snd) (σ.dicts rNewT)
    (allocDict (deepcopyEntries σ (σ.dicts rMetaT)).2
      (deepcopyEntries σ (σ.dicts rMetaT)).1).2
    (by show σ.next ≤ (deepcopyEntries σ (σ.dicts rMetaT)).2.next + 1; omega)
    (by show σ.next ≤ (deepcopyEntries σ (σ.dicts rMetaT)).2.next; omega)
    (fun p hp => List.mem_map.mpr ⟨p, hp, rfl⟩)
    (by
      intro p hp
      have hp' : p ∈ (deepcopyEntries σ (σ.dicts rMetaT)).1 := by
        simpa [allocDict] using hp
      exact Or.inl (Nat.le_trans (hdc3 p hp') (Nat.le_refl _)))
  obtain ⟨hlp1, hlp2, hlp3⟩ := hloop
  refine ⟨?_, ?_, ?_⟩
  · intro res σ' heq r hr
    rw [refine_clsH] at heq
    split at heq
    · split at heq
      · simp at heq
      · simp only [Except.ok.injEq, Prod.mk.injEq] at heq
        obtain ⟨_, h2⟩ := heq
        rw [← h2]
        constructor
        · show (if r = σ.next then _ else σ.lists r) = σ.lists r
          rw [if_neg (by omega)]
        · rfl
    · split at heq
      · simp only [Except.ok.injEq, Prod.mk.injEq] at heq
        obtain ⟨_, h2⟩ := heq
        rw [← h2]
        constructor
        · show (if r = σ.next then _ else σ.lists r) = σ.lists r
          rw [if_neg (by omega)]
        · rfl
      · simp at heq
  · intro res σ' heq r hr
    rw [refine_tasksH] at heq
    split at heq
    · simp only [Except.ok.injEq, Prod.mk.injEq] at heq
      obtain ⟨_, h2⟩ := heq
      rw [← h2]
      constructor
      · rfl
      · show (if r = σ.next then _ else σ.dicts r) = σ.dicts r
        rw [if_neg (by omega)]
    · split at heq
      · simp only [Except.ok.injEq, Prod.mk.injEq] at heq
        obtain ⟨_, h2⟩ := heq
        rw [← h2]
        obtain ⟨hl, hd⟩ := hlp2 r hr
        rw [hl, hd]
        obtain ⟨hcl, hcd⟩ := hdc2 r hr
        constructor
        · show (deepcopyEntries σ (σ.dicts rMetaT)).2.lists r = σ.lists r
          exact hcl
        · show (if r = (deepcopyEntries σ (σ.dicts rMetaT)).2.next then _
              else (deepcopyEntries σ (σ.dicts rMetaT)).2.dicts r) = σ.dicts r
          rw [if_neg (by omega), hcd]
      · simp at heq
  · intro res σ' heq
    obtain ⟨hres, hσ'⟩ := hmergeCore res σ' heq
    have hresval : res.1 = (deepcopyEntries σ (σ.dicts rMetaT)).2.next := hres
    refine ⟨by omega, by omega, ?_⟩
    intro p hp q hq
    have hp' : p ∈ (((σ.dicts rNewT).foldl
        (fun σc pr => mergeTaskH σc
          (allocDict (deepcopyEntries σ (σ.dicts rMetaT)).2
            (deepcopyEntries σ (σ.dicts rMetaT)).1).1 pr.1 pr.2)
        (allocDict (deepcopyEntries σ (σ.dicts rMetaT)).2
          (deepcopyEntries σ (σ.dicts rMetaT)).1).2).dicts
        (allocDict (deepcopyEntries σ (σ.dicts rMetaT)).2
          (deepcopyEntries σ (σ.dicts rMetaT)).1).1) := by
      rw [← hσ', ← hres]
      exact hp
    rcases hlp3 p hp' with h | h
    · have := hmetaRefs q hq
      omega
    · obtain ⟨pr, hpr, hpreq⟩ := List.mem_map.mp h
      rw [← hpreq]
      exact hdisj pr hpr q hq

/-- C10 witness: a heap holding one new-task dict and one metadata task
dict with non-aliased class lists. -/
theorem refine_no_mutation_spec_witness :
    ((3 : Nat) < 4 ∧
     (∀ q ∈ (PyHeap.mk 4
        (fun r => if r = 0 then ["x"] else if r = 1 then ["a"] else [])
        (fun r => if r = 2 then [("t", 0)] else
          if r = 3 then [("u", 1)] else [])).dicts 3, q.2 < 4) ∧
     (∀ p ∈ (PyHeap.mk 4
        (fun r => if r = 0 then ["x"] else if r = 1 then ["a"] else [])
        (fun r => if r = 2 then [("t", 0)] else
          if r = 3 then [("u", 1)] else [])).dicts 2,
      ∀ q ∈ (PyHeap.mk 4
        (fun r => if r = 0 then ["x"] else if r = 1 then ["a"] else [])
        (fun r => if r = 2 then [("t", 0)] else
          if r = 3 then [("u", 1)] else [])).dicts 3, p.2 ≠ q.2)) ∧
    (∀ res σ', refine_tasksH (PyHeap.mk 4
        (fun r => if r = 0 then ["x"] else if r = 1 then ["a"] else [])
        (fun r => if r = 2 then [("t", 0)] else
          if r = 3 then [("u", 1)] else [])) 2 3 "MERGE" = .ok (res, σ') →
      (4 : Nat) ≤ res.1 ∧ res.1 ≠ 3 ∧
      ∀ p ∈ σ'.dicts res.1, ∀ q ∈ (PyHeap.mk 4
        (fun r => if r = 0 then ["x"] else if r = 1 then ["a"] else [])
        (fun r => if r = 2 then [("t", 0)] else
          if r = 3 then [("u", 1)] else [])).dicts 3, p.2 ≠ q.2) :=
  ⟨⟨by decide, by decide, by decide⟩,
   (refine_no_mutation_spec (PyHeap.mk 4
      (fun r => if r = 0 then ["x"] else if r = 1 then ["a"] else [])
      (fun r => if r = 2 then [("t", 0)] else
        if r = 3 then [("u", 1)] else [])) 0 1 2 3 "MERGE"
      (by decide) (by decide) (by decide)).2.2⟩

/-- C5 witness: one foreground class, a block of three rows. -/
theorem mixer_round_trip_spec_witness :
    ((["a"] : List String) ++ ["__BG__"]).Nodup ∧
    mixParam (map_class_names ((["a"] : List String) ++ ["__BG__"])
        ((["a"] : List String) ++ ["__BG__"]))
      ((["a"] : List String) ++ ["__BG__"]).length
      ((["a"] : List String) ++ ["__BG__"]).length [7, 8, 9] [7, 8, 9] = [7, 8, 9] :=
  ⟨by decide, mixer_round_trip_spec ["a"] [7, 8, 9] (by decide)⟩

end Mpa
